import Mathlib

/-!
Verification development for the agm-platform job-orchestration backend.

The definitions below are shallow embeddings of the Python services in
`backend/services` and the SQLAlchemy models in `backend/models`:

- numeric SQL `Float` columns are modelled as `Rat`, integer counters as `Int`
  or `Nat`, timestamps (`DateTime`) as `Nat`;
- JSON payloads (`input_data`, `output_data`) are modelled as opaque `String`s;
- a database table is a `List` of rows; `SELECT ... WHERE id = x` together
  with `scalar_one_or_none` is `List.find?`, and `UPDATE ... WHERE id = x`
  maps the update over every row whose id matches;
- `datetime.utcnow()` is passed in explicitly as a `now : Nat` argument.
-/

/-- Embedding of the `JobStatus` enum from `backend/models/agent_job.py`. -/
inductive JobStatus where
  | pending
  | queued
  | running
  | paused
  | completed
  | failed
  | cancelled
  | retrying
  | dead
deriving DecidableEq, Repr

/-- Terminal states per the spec glossary: COMPLETED, FAILED, CANCELLED. -/
def JobStatus.isTerminal : JobStatus → Bool
  | .completed => true
  | .failed => true
  | .cancelled => true
  | _ => false

/-- Embedding of the `AgentJob` row from `backend/models/agent_job.py`
(fields relevant to the job lifecycle; `priority` is a SQL `Float` column,
hence `Rat`; `progress` is an integer percentage). -/
structure Job where
  id : String
  user_id : String
  agent_type : String
  command : String
  input_data : String
  status : JobStatus
  priority : Rat
  progress : Int
  output_data : Option String
  error_message : Option String
  created_at : Nat
  started_at : Option Nat
  completed_at : Option Nat
  depends_on_job_id : Option String
deriving DecidableEq, Repr

/-- Embedding of `JobService.update_job_status` from
`backend/services/job_service.py` applied to a single matching row: the
update dictionary always carries the new `status`; `progress`,
`output_data` and `error_message` are included only when the corresponding
argument is not `None`; `started_at` is set to now whenever the new status
is RUNNING, and `completed_at` whenever it is COMPLETED or FAILED.
There is no guard on the current status of the row. -/
def applyJobUpdate (job : Job) (status : JobStatus) (progress : Option Int)
    (result : Option String) (error_message : Option String) (now : Nat) : Job :=
  { job with
    status := status
    progress := match progress with
      | some p => p
      | none => job.progress
    output_data := match result with
      | some r => some r
      | none => job.output_data
    error_message := match error_message with
      | some e => some e
      | none => job.error_message
    started_at := if status = .running then some now else job.started_at
    completed_at :=
      if status = .completed ∨ status = .failed then some now else job.completed_at }

/-- Embedding of `JobService.update_job_status` at table level:
`UPDATE agent_jobs SET ... WHERE id = job_id`. -/
def updateJobStatus (db : List Job) (job_id : String) (status : JobStatus)
    (progress : Option Int) (result : Option String) (error_message : Option String)
    (now : Nat) : List Job :=
  db.map fun j =>
    if j.id = job_id then applyJobUpdate j status progress result error_message now else j

/-- Strict queue ordering of `get_next_queued_job`
(`ORDER BY priority DESC, created_at ASC`): `x` comes strictly before `y`
when it has higher priority, or equal priority and older `created_at`. -/
def beats (x y : Job) : Prop :=
  x.priority > y.priority ∨ (x.priority = y.priority ∧ x.created_at < y.created_at)

instance (x y : Job) : Decidable (beats x y) :=
  inferInstanceAs (Decidable (_ ∨ _))

/-- Embedding of the ordering used by `get_next_queued_job`
(`ORDER BY priority DESC, created_at ASC LIMIT 1`): a left fold keeping the
currently best PENDING row, preferring strictly higher priority and, at equal
priority, strictly older `created_at`. -/
def selectNextPending (db : List Job) : Option Job :=
  (db.filter fun j => j.status = .pending).foldl
    (fun acc j =>
      match acc with
      | none => some j
      | some b => if beats j b then some j else some b)
    none

/-- Embedding of `JobService.get_next_queued_job`: select the first PENDING
row under `ORDER BY priority DESC, created_at ASC`; if one is found, mark it
RUNNING with progress 0 via `update_job_status` and return it. The query
does not constrain `depends_on_job_id` in any way. -/
def getNextQueuedJob (db : List Job) (now : Nat) : Option Job × List Job :=
  match selectNextPending db with
  | none => (none, db)
  | some j => (some j, updateJobStatus db j.id .running (some 0) none none now)

/-- Embedding of `JobService.get_job`: look the row up by id and, when a
user id is supplied, additionally filter on ownership. Python truthiness is
kept: an empty-string user id skips the ownership filter
(`if user_id:` in the source). -/
def getJob (db : List Job) (job_id : String) (user_id : Option String) : Option Job :=
  db.find? fun j =>
    (j.id == job_id) &&
      (match user_id with
       | some u => (u == "") || (j.user_id == u)
       | none => true)

/-- Embedding of `JobService.cancel_job`: fetch the job scoped to the caller;
return false when absent or when its status is neither PENDING nor RUNNING;
otherwise transition it to CANCELLED with the fixed error message and
return true. -/
def cancelJob (db : List Job) (job_id : String) (user_id : String) (now : Nat) :
    Bool × List Job :=
  match getJob db job_id (some user_id) with
  | none => (false, db)
  | some j =>
    if j.status = .pending ∨ j.status = .running then
      (true, updateJobStatus db job_id .cancelled none none (some "Cancelled by user") now)
    else
      (false, db)

/-- Outcome of the routed work inside `TaskRunner.execute_job`: `_route_job`
returns a result, or an `asyncio.CancelledError` is observed, or some other
exception escapes. -/
inductive ExecOutcome where
  | success (result : String)
  | cancelledSignal
  | failure (msg : String)
deriving DecidableEq, Repr

/-- Embedding of `TaskRunner.execute_job` from
`backend/services/task_runner.py` at row level: first an update to RUNNING
with progress 10, then — depending on how `_route_job` ends — an update to
COMPLETED with progress 100 and the result, or to CANCELLED with error
message "Task cancelled", or to FAILED with the exception description. -/
def executeJobRow (job : Job) (outcome : ExecOutcome) (t1 t2 : Nat) : Job :=
  let j1 := applyJobUpdate job .running (some 10) none none t1
  match outcome with
  | .success r => applyJobUpdate j1 .completed (some 100) (some r) none t2
  | .cancelledSignal => applyJobUpdate j1 .cancelled none none (some "Task cancelled") t2
  | .failure e => applyJobUpdate j1 .failed none none (some e) t2

/-- Embedding of `TaskRunner.execute_job` at table level: the two
`update_job_status` calls both target the id of the executed job. -/
def executeJob (db : List Job) (job_id : String) (outcome : ExecOutcome)
    (t1 t2 : Nat) : List Job :=
  let db1 := updateJobStatus db job_id .running (some 10) none none t1
  match outcome with
  | .success r => updateJobStatus db1 job_id .completed (some 100) (some r) none t2
  | .cancelledSignal =>
      updateJobStatus db1 job_id .cancelled none none (some "Task cancelled") t2
  | .failure e => updateJobStatus db1 job_id .failed none none (some e) t2

/-- Embedding of `ProgressTracker` state from
`backend/services/progress_tracker.py`. -/
structure ProgressTracker where
  job_id : String
  current_progress : Int
deriving DecidableEq, Repr

/-- Embedding of `ProgressTracker.update`: values outside 0..100 are rejected
(logged and ignored, nothing changes); otherwise the tracker remembers the
value and `update_job_status` is called with status RUNNING and that
progress. No comparison against the current progress is made. -/
def ProgressTracker.update (tr : ProgressTracker) (db : List Job) (p : Int) (now : Nat) :
    ProgressTracker × List Job :=
  if p < 0 ∨ p > 100 then (tr, db)
  else ({ tr with current_progress := p },
        updateJobStatus db tr.job_id .running (some p) none none now)

/-- Embedding of `ProgressTracker.increment`: update to
`min (current + amount) 100`. -/
def ProgressTracker.increment (tr : ProgressTracker) (db : List Job) (amount : Int)
    (now : Nat) : ProgressTracker × List Job :=
  tr.update db (min (tr.current_progress + amount) 100) now

/-- Embedding of the `BudgetEntry` row from `backend/models/budget_entry.py`
(the columns aggregated by `get_usage_summary`; `Float` columns as `Rat`). -/
structure BudgetEntry where
  id : String
  user_id : String
  cost : Rat
  tokens_used : Rat
  web_search_calls : Rat
  file_search_calls : Rat
  created_at : Nat
deriving DecidableEq, Repr

/-- Shape of the dictionary returned by `BudgetService.get_usage_summary`. -/
structure UsageSummary where
  total_calls : Nat
  total_cost_usd : Rat
  total_tokens : Rat
  total_web_searches : Rat
  total_file_searches : Rat
deriving DecidableEq, Repr

/-- Embedding of the Python built-in `round` to an integer: round half to
even (banker's rounding) on exact rationals. -/
def pyRoundHalfEven (q : Rat) : Int :=
  let n := ⌊q⌋
  let f := q - n
  if f < 1/2 then n
  else if 1/2 < f then n + 1
  else if n % 2 = 0 then n else n + 1

/-- Embedding of `round(x, 6)` as used on `total_cost` in
`get_usage_summary`. -/
def round6 (q : Rat) : Rat :=
  (pyRoundHalfEven (q * 1000000) : Rat) / 1000000

/-- Embedding of the WHERE clause of `BudgetService.get_usage_summary`:
rows of the caller, further constrained by `created_at >= start_date` and
`created_at <= end_date` when those arguments are given. -/
def entryMatches (user : String) (start_date end_date : Option Nat)
    (e : BudgetEntry) : Bool :=
  (e.user_id == user) &&
    (match start_date with
     | some s => decide (s ≤ e.created_at)
     | none => true) &&
    (match end_date with
     | some d => decide (e.created_at ≤ d)
     | none => true)

/-- Embedding of `BudgetService.get_usage_summary`: COUNT and SUM aggregates
over the matching rows; the cost total is rounded to six decimal places
(`round(row.total_cost or 0.0, 6)` in the source), the other sums default
to 0 on an empty selection. -/
def getUsageSummary (db : List BudgetEntry) (user : String)
    (start_date end_date : Option Nat) : UsageSummary :=
  let rows := db.filter (entryMatches user start_date end_date)
  { total_calls := rows.length
    total_cost_usd := round6 (rows.map (·.cost)).sum
    total_tokens := (rows.map (·.tokens_used)).sum
    total_web_searches := (rows.map (·.web_search_calls)).sum
    total_file_searches := (rows.map (·.file_search_calls)).sum }

/-- Embedding of the `BudgetLimit` row from `backend/models/budget_limit.py`
(nullable `Float` limit columns as `Option Rat`). -/
structure BudgetLimitRec where
  id : String
  user_id : String
  daily_limit_usd : Option Rat
  monthly_limit_usd : Option Rat
  total_limit_usd : Option Rat
  warning_threshold_percent : Rat
  is_active : Bool
  created_at : Nat
  updated_at : Nat
deriving DecidableEq, Repr

/-- Which configured limit a violation message refers to. The source builds
formatted strings here; the embedding keeps the limit kind and the two
amounts the message interpolates. -/
inductive LimitKind where
  | daily
  | monthly
  | total
deriving DecidableEq, Repr

/-- One entry of the `violations` list built by `check_budget_limit`. -/
structure Violation where
  kind : LimitKind
  used : Rat
  limit : Rat
deriving DecidableEq, Repr

/-- Shape of the dictionary returned by `check_budget_limit`; the three
optional fields are present only in the branch where an active limit record
was found. -/
structure BudgetCheck where
  within_budget : Bool
  message : Option String
  violations : Option (List Violation)
  usage : Option (Rat × Rat × Rat)
  limits : Option (Option Rat × Option Rat × Option Rat)
deriving DecidableEq, Repr

/-- Python truthiness of a nullable float: `None` and `0.0` are falsy
(`if limit.daily_limit_usd:` in the source). -/
def pyTruthy (o : Option Rat) : Bool :=
  match o with
  | none => false
  | some v => v != 0

/-- Embedding of `BudgetService.check_budget_limit`. The limit record is the
single active row for the caller; when none exists the function returns
early with `within_budget: True` and only a message. Otherwise usage is
aggregated over the day window, the month window and all time (the source
derives `daily_start` and `monthly_start` from `utcnow`; they are passed in
here), and a violation is recorded for every truthy configured limit whose
usage has reached it. -/
def checkBudgetLimit (limits : List BudgetLimitRec) (ledger : List BudgetEntry)
    (user : String) (dailyStart monthlyStart : Nat) : BudgetCheck :=
  match limits.find? (fun l => (l.user_id == user) && l.is_active) with
  | none =>
      { within_budget := true
        message := some "No budget limit configured"
        violations := none
        usage := none
        limits := none }
  | some limit =>
      let daily := getUsageSummary ledger user (some dailyStart) none
      let monthly := getUsageSummary ledger user (some monthlyStart) none
      let total := getUsageSummary ledger user none none
      let dailyViol : List Violation :=
        if pyTruthy limit.daily_limit_usd ∧
            daily.total_cost_usd ≥ limit.daily_limit_usd.getD 0 then
          [⟨.daily, daily.total_cost_usd, limit.daily_limit_usd.getD 0⟩]
        else []
      let monthlyViol : List Violation :=
        if pyTruthy limit.monthly_limit_usd ∧
            monthly.total_cost_usd ≥ limit.monthly_limit_usd.getD 0 then
          [⟨.monthly, monthly.total_cost_usd, limit.monthly_limit_usd.getD 0⟩]
        else []
      let totalViol : List Violation :=
        if pyTruthy limit.total_limit_usd ∧
            total.total_cost_usd ≥ limit.total_limit_usd.getD 0 then
          [⟨.total, total.total_cost_usd, limit.total_limit_usd.getD 0⟩]
        else []
      let viols := dailyViol ++ monthlyViol ++ totalViol
      { within_budget := viols.length = 0
        message := none
        violations := some viols
        usage := some (daily.total_cost_usd, monthly.total_cost_usd, total.total_cost_usd)
        limits := some (limit.daily_limit_usd, limit.monthly_limit_usd, limit.total_limit_usd) }

/-- Embedding of the update branch of `BudgetService.set_budget_limit`
(the record for the caller already exists): each limit argument overwrites
its column only when it is not `None`; `warning_threshold_percent` is
always assigned the supplied value (the Python signature defaults it to
80.0); `updated_at` is set to now. Nothing else on the row is touched. -/
def setBudgetLimitUpdate (rec : BudgetLimitRec) (daily_limit monthly_limit total_limit : Option Rat)
    (warning_threshold : Rat) (now : Nat) : BudgetLimitRec :=
  { rec with
    daily_limit_usd := match daily_limit with
      | some v => some v
      | none => rec.daily_limit_usd
    monthly_limit_usd := match monthly_limit with
      | some v => some v
      | none => rec.monthly_limit_usd
    total_limit_usd := match total_limit with
      | some v => some v
      | none => rec.total_limit_usd
    warning_threshold_percent := warning_threshold
    updated_at := now }

/-- Association-list lookup for the Python dictionaries of the connection
manager (first binding of the key, dictionaries have at most one). -/
def alookup {β : Type} : List (String × β) → String → Option β
  | [], _ => none
  | (k, v) :: rest, key => if key = k then some v else alookup rest key

/-- Dictionary assignment `m[key] = v`: replace the binding when present,
append it otherwise. -/
def aset {β : Type} : List (String × β) → String → β → List (String × β)
  | [], key, v => [(key, v)]
  | (k, w) :: rest, key, v =>
      if key = k then (key, v) :: rest else (k, w) :: aset rest key v

/-- Dictionary deletion `del m[key]` (no-op when the key is absent). -/
def adel {β : Type} : List (String × β) → String → List (String × β)
  | [], _ => []
  | (k, w) :: rest, key => if key = k then rest else (k, w) :: adel rest key

/-- Lookup of a set-valued dictionary entry, defaulting to the empty set. -/
def lookupD (m : List (String × List String)) (key : String) : List String :=
  (alookup m key).getD []

/-- Python `set.add` on a set modelled as a duplicate-free list. -/
def addToSet (xs : List String) (x : String) : List String :=
  if x ∈ xs then xs else xs ++ [x]

/-- Python `set.remove` / discard on a set modelled as a list. -/
def removeFromSet (xs : List String) (x : String) : List String :=
  xs.filter (fun y => y ≠ x)

/-- Per-connection data kept in `ConnectionManager.active_connections`
(`backend/api/websocket.py`): the owning user and the set of job rooms the
connection joined. -/
structure ConnInfo where
  user_id : String
  rooms : List String
deriving DecidableEq, Repr

/-- Combined state of the `ConnectionManager` and of the Socket.IO server
room registry it drives with `enter_room` and `leave_room`. -/
structure HubState where
  active_connections : List (String × ConnInfo)
  job_subscribers : List (String × List String)
  sio_rooms : List (String × List String)
deriving DecidableEq, Repr

/-- Room name used for a job in `backend/api/websocket.py`. -/
def roomName (job_id : String) : String :=
  "job_" ++ job_id

/-- Embedding of `ConnectionManager.connect`: register the connection with
an empty room set. -/
def HubState.connect (s : HubState) (sid user : String) : HubState :=
  { s with active_connections := aset s.active_connections sid ⟨user, []⟩ }

/-- Embedding of `ConnectionManager.join_job_room`: refuse unknown
connections; otherwise enter the Socket.IO room, record the room on the
connection, and add the sid to `job_subscribers` (creating the entry when
absent). -/
def HubState.joinJobRoom (s : HubState) (sid job_id : String) : HubState × Bool :=
  match alookup s.active_connections sid with
  | none => (s, false)
  | some conn =>
      ({ active_connections :=
           aset s.active_connections sid { conn with rooms := addToSet conn.rooms job_id }
         job_subscribers :=
           aset s.job_subscribers job_id (addToSet (lookupD s.job_subscribers job_id) sid)
         sio_rooms :=
           aset s.sio_rooms (roomName job_id)
             (addToSet (lookupD s.sio_rooms (roomName job_id)) sid) }, true)

/-- Embedding of `ConnectionManager.leave_job_room`: for a known connection,
leave the Socket.IO room, drop the room from the connection, remove the sid
from `job_subscribers`, and delete the subscriber entry when it becomes
empty. The source guards the removal with membership tests; removing a sid
that is not in the (possibly absent) set is the same no-op here. -/
def HubState.leaveJobRoom (s : HubState) (sid job_id : String) : HubState :=
  match alookup s.active_connections sid with
  | none => s
  | some conn =>
      let remaining := removeFromSet (lookupD s.job_subscribers job_id) sid
      { active_connections :=
          aset s.active_connections sid { conn with rooms := removeFromSet conn.rooms job_id }
        job_subscribers :=
          if remaining = [] then adel s.job_subscribers job_id
          else aset s.job_subscribers job_id remaining
        sio_rooms :=
          aset s.sio_rooms (roomName job_id)
            (removeFromSet (lookupD s.sio_rooms (roomName job_id)) sid) }

/-- Embedding of `ConnectionManager.disconnect`: leave every joined room,
then delete the connection record. -/
def HubState.disconnect (s : HubState) (sid : String) : HubState :=
  match alookup s.active_connections sid with
  | none => s
  | some conn =>
      let s1 := conn.rooms.foldl (fun st j => st.leaveJobRoom sid j) s
      { s1 with active_connections := adel s1.active_connections sid }

/-- Subscribers of a job according to `ConnectionManager.job_subscribers`
(what `get_job_subscriber_count` counts). -/
def subscribersOf (s : HubState) (job_id : String) : List String :=
  lookupD s.job_subscribers job_id

/-- Embedding of `emit_job_update` from `backend/api/websocket.py`: when the
subscriber count from the local map is zero, return without emitting
(`Bool` records whether `sio.emit` was called); otherwise emit to the
Socket.IO room of the job, whose current members receive the event. -/
def emitJobUpdate (s : HubState) (job_id : String) : Bool × List String :=
  if (subscribersOf s job_id).length = 0 then (false, [])
  else (true, lookupD s.sio_rooms (roomName job_id))

/-- Embedding of the `job_started` emission in `AgentService.execute_job`
(`backend/services/agent_service.py`): `sio.emit` is called with no room
argument, so the event goes to every connected client. -/
def agentBroadcastRecipients (s : HubState) : List String :=
  s.active_connections.map (fun c => c.1)

/-- Well-formed hub state: the two dictionaries have unique keys (they are
Python dicts) and the Socket.IO room of every job holds exactly the sids
recorded in `job_subscribers` for that job. All states reachable from the
initial state through the connection-manager operations satisfy this. -/
def HubWF (s : HubState) : Prop :=
  (s.job_subscribers.map Prod.fst).Nodup ∧
  (s.sio_rooms.map Prod.fst).Nodup ∧
  ∀ j : String, lookupD s.sio_rooms (roomName j) = lookupD s.job_subscribers j

/-- Initial hub state: no connections, no rooms. -/
def HubState.initial : HubState :=
  ⟨[], [], []⟩

/-- Sample row: a job that already reached COMPLETED. -/
def sampleCompletedJob : Job :=
  ⟨"j1", "u1", "seo_writer", "write", "topic", .completed, 5, 100,
    some "out", none, 0, some 1, some 2, none⟩

/-- Sample row: a RUNNING job at 50 percent with a recorded start time. -/
def sampleRunningJob : Job :=
  ⟨"j2", "u1", "seo_writer", "write", "topic", .running, 5, 50,
    none, none, 0, some 5, none, none⟩

/-- Claim C1, counterexample: `update_job_status` has no terminal-state
guard, so a job already in the terminal state COMPLETED has its status
changed (and its error message overwritten) by a later call. -/
theorem C1_terminal_absorbing_cex :
    sampleCompletedJob.status.isTerminal = true ∧
    (applyJobUpdate sampleCompletedJob .failed none none (some "boom") 10).status ≠
      sampleCompletedJob.status ∧
    (applyJobUpdate sampleCompletedJob .failed none none (some "boom") 10).error_message ≠
      sampleCompletedJob.error_message := by
  decide

/-- Claim C1, amended: `update_job_status` applies its arguments
unconditionally, even to a job whose status is already COMPLETED, FAILED,
or CANCELLED: the stored status becomes the argument status, and
`output_data` and `error_message` are overwritten exactly when the
corresponding argument is supplied, otherwise retained. -/
theorem C1_terminal_not_absorbing (job : Job) (st : JobStatus) (p : Option Int)
    (r e : Option String) (now : Nat) (h : job.status.isTerminal = true) :
    (applyJobUpdate job st p r e now).status = st ∧
    (applyJobUpdate job st p r e now).output_data =
      (match r with
       | some x => some x
       | none => job.output_data) ∧
    (applyJobUpdate job st p r e now).error_message =
      (match e with
       | some x => some x
       | none => job.error_message) := by
  exact ⟨rfl, rfl, rfl⟩

/-- Claim C1, witness: the amended theorem applied to a concrete COMPLETED
job being overwritten by a FAILED update. -/
theorem C1_terminal_not_absorbing_witness :
    sampleCompletedJob.status.isTerminal = true ∧
    ((applyJobUpdate sampleCompletedJob .failed none none (some "boom") 10).status = .failed ∧
     (applyJobUpdate sampleCompletedJob .failed none none (some "boom") 10).output_data =
       sampleCompletedJob.output_data ∧
     (applyJobUpdate sampleCompletedJob .failed none none (some "boom") 10).error_message =
       some "boom") :=
  ⟨by decide, C1_terminal_not_absorbing sampleCompletedJob .failed none none (some "boom") 10 (by decide)⟩

/-- Claim C2, counterexample: a progress update on an already-RUNNING job
(status argument RUNNING, as `ProgressTracker.update` issues) rewrites
`started_at`, and the transition into the terminal state CANCELLED does not
set `completed_at`. -/
theorem C2_timestamp_cex :
    sampleRunningJob.status = .running ∧
    (applyJobUpdate sampleRunningJob .running (some 60) none none 9).started_at ≠
      sampleRunningJob.started_at ∧
    (applyJobUpdate sampleRunningJob .cancelled none none (some "Cancelled by user") 9).status.isTerminal = true ∧
    (applyJobUpdate sampleRunningJob .cancelled none none (some "Cancelled by user") 9).completed_at = none := by
  decide

/-- Claim C2, amended: `update_job_status` overwrites `started_at` with the
current time on every call whose status argument is RUNNING — including
progress refreshes of a job that is already RUNNING — and sets
`completed_at` exactly on calls whose status argument is COMPLETED or
FAILED; entering CANCELLED leaves `completed_at` untouched. -/
theorem C2_timestamp_rules (job : Job) (st : JobStatus) (p : Option Int)
    (r e : Option String) (now : Nat) :
    (applyJobUpdate job st p r e now).started_at =
      (if st = .running then some now else job.started_at) ∧
    (applyJobUpdate job st p r e now).completed_at =
      (if st = .completed ∨ st = .failed then some now else job.completed_at) := by
  exact ⟨rfl, rfl⟩

/-- Claim C4: when the cancellation signal is observed during
`TaskRunner.execute_job`, the affected rows end in status CANCELLED (not
FAILED) with the fixed error message, and `output_data` is left exactly as
it was — no result is written. Unaffected rows are untouched. -/
theorem C4_cancellation_terminal (db : List Job) (i : String) (t1 t2 : Nat) :
    executeJob db i .cancelledSignal t1 t2 =
      db.map (fun j =>
        if j.id = i then
          { j with
            status := .cancelled
            progress := 10
            started_at := some t1
            error_message := some "Task cancelled" }
        else j) := by
  unfold executeJob updateJobStatus
  simp only [List.map_map]
  refine List.map_congr_left ?_
  intro j _
  by_cases hj : j.id = i
  · simp [applyJobUpdate, hj]
  · simp [Function.comp, hj]

/-- Claim C10: when `set_budget_limit` updates an existing record, each
limit argument given as `None` leaves the stored column unchanged while a
supplied value overwrites it; `warning_threshold_percent` is always
assigned the supplied value (the Python signature defaults it to 80.0);
`updated_at` is set; every other field of the row is unchanged. -/
theorem C10_set_budget_limit_frame (rec : BudgetLimitRec)
    (d m t : Option Rat) (w : Rat) (now : Nat) :
    (setBudgetLimitUpdate rec d m t w now).daily_limit_usd =
      (match d with
       | some v => some v
       | none => rec.daily_limit_usd) ∧
    (setBudgetLimitUpdate rec d m t w now).monthly_limit_usd =
      (match m with
       | some v => some v
       | none => rec.monthly_limit_usd) ∧
    (setBudgetLimitUpdate rec d m t w now).total_limit_usd =
      (match t with
       | some v => some v
       | none => rec.total_limit_usd) ∧
    (setBudgetLimitUpdate rec d m t w now).warning_threshold_percent = w ∧
    (setBudgetLimitUpdate rec d m t w now).updated_at = now ∧
    (setBudgetLimitUpdate rec d m t w now).id = rec.id ∧
    (setBudgetLimitUpdate rec d m t w now).user_id = rec.user_id ∧
    (setBudgetLimitUpdate rec d m t w now).is_active = rec.is_active ∧
    (setBudgetLimitUpdate rec d m t w now).created_at = rec.created_at := by
  exact ⟨rfl, rfl, rfl, rfl, rfl, rfl, rfl, rfl, rfl⟩

theorem beats_irrefl (x : Job) : ¬ beats x x := by
  simp [beats]

theorem beats_trans {x y z : Job} (h1 : beats x y) (h2 : beats y z) : beats x z := by
  rcases h1 with h1 | ⟨h1a, h1b⟩ <;> rcases h2 with h2 | ⟨h2a, h2b⟩
  · exact Or.inl (lt_trans h2 h1)
  · exact Or.inl (by rw [← h2a]; exact h1)
  · exact Or.inl (by rw [h1a]; exact h2)
  · exact Or.inr ⟨h1a.trans h2a, lt_trans h1b h2b⟩

/-- Specification of the best-row fold of `selectNextPending`: the result
comes from the accumulator or the list, nothing in the list strictly beats
it, and it is at least as good as any starting accumulator. -/
theorem pickFold_spec (l : List Job) :
    ∀ (acc : Option Job) (j : Job),
      l.foldl
        (fun acc j =>
          match acc with
          | none => some j
          | some b => if beats j b then some j else some b) acc = some j →
      (acc = some j ∨ j ∈ l) ∧ (∀ x ∈ l, ¬ beats x j) ∧
      (∀ b, acc = some b → b = j ∨ beats j b) := by
  induction l with
  | nil =>
      intro acc j h
      simp only [List.foldl_nil] at h
      refine ⟨Or.inl h, by simp, ?_⟩
      intro b hb
      rw [hb] at h
      exact Or.inl (Option.some.inj h)
  | cons x l ih =>
      intro acc j h
      simp only [List.foldl_cons] at h
      cases acc with
      | none =>
          obtain ⟨hmem, hbest, hacc⟩ := ih (some x) j h
          have hnx : ¬ beats x j := by
            rcases hacc x rfl with rfl | hjx
            · exact beats_irrefl x
            · intro hxj
              exact beats_irrefl j (beats_trans hjx hxj)
          refine ⟨?_, ?_, ?_⟩
          · rcases hmem with hj | hj
            · refine Or.inr ?_
              rw [← Option.some.inj hj]
              exact List.mem_cons_self x l
            · exact Or.inr (List.mem_cons_of_mem x hj)
          · intro y hy
            rcases List.mem_cons.mp hy with rfl | hy
            · exact hnx
            · exact hbest y hy
          · intro b0 hb0
            exact absurd hb0 (by simp)
      | some b =>
          by_cases hxb : beats x b
          · have h2 : List.foldl
                (fun acc j =>
                  match acc with
                  | none => some j
                  | some b => if beats j b then some j else some b) (some x) l = some j := by
              simpa [hxb] using h
            obtain ⟨hmem, hbest, hacc⟩ := ih (some x) j h2
            have hxj : x = j ∨ beats j x := hacc x rfl
            have hnx : ¬ beats x j := by
              rcases hxj with rfl | hjx
              · exact beats_irrefl x
              · intro hxj2
                exact beats_irrefl j (beats_trans hjx hxj2)
            refine ⟨?_, ?_, ?_⟩
            · rcases hmem with hj | hj
              · refine Or.inr ?_
                rw [← Option.some.inj hj]
                exact List.mem_cons_self x l
              · exact Or.inr (List.mem_cons_of_mem x hj)
            · intro y hy
              rcases List.mem_cons.mp hy with rfl | hy
              · exact hnx
              · exact hbest y hy
            · intro b0 hb0
              rw [← Option.some.inj hb0]
              rcases hxj with rfl | hjx
              · exact Or.inr hxb
              · exact Or.inr (beats_trans hjx hxb)
          · have h2 : List.foldl
                (fun acc j =>
                  match acc with
                  | none => some j
                  | some b => if beats j b then some j else some b) (some b) l = some j := by
              simpa [hxb] using h
            obtain ⟨hmem, hbest, hacc⟩ := ih (some b) j h2
            have hjb : b = j ∨ beats j b := hacc b rfl
            have hnx : ¬ beats x j := by
              rcases hjb with rfl | hjb
              · exact hxb
              · intro hxj
                exact hxb (beats_trans hxj hjb)
            refine ⟨?_, ?_, ?_⟩
            · rcases hmem with hj | hj
              · exact Or.inl hj
              · exact Or.inr (List.mem_cons_of_mem x hj)
            · intro y hy
              rcases List.mem_cons.mp hy with rfl | hy
              · exact hnx
              · exact hbest y hy
            · intro b0 hb0
              rw [← Option.some.inj hb0]
              exact hjb

/-- Specification of `selectNextPending`: a returned job is a PENDING row of
the table that no other PENDING row strictly precedes in the queue order. -/
theorem selectNextPending_spec (db : List Job) (j : Job)
    (h : selectNextPending db = some j) :
    j ∈ db ∧ j.status = .pending ∧
      ∀ x ∈ db, x.status = .pending → ¬ beats x j := by
  unfold selectNextPending at h
  obtain ⟨hmem, hbest, _⟩ := pickFold_spec _ none j h
  rcases hmem with hj | hj
  · exact absurd hj (by simp)
  · have hj2 := List.mem_filter.mp hj
    refine ⟨hj2.1, by simpa using hj2.2, ?_⟩
    intro x hx hxp
    exact hbest x (List.mem_filter.mpr ⟨hx, by simpa using hxp⟩)

/-- Rows touched by the marking step of `get_next_queued_job`: every row
whose id matches the selected job becomes RUNNING at progress 0. -/
theorem updateJobStatus_marks_running (db : List Job) (i : String) (now : Nat) :
    ∀ r ∈ updateJobStatus db i .running (some 0) none none now,
      r.id = i → r.status = .running ∧ r.progress = 0 ∧ r.started_at = some now := by
  intro r hr hri
  unfold updateJobStatus at hr
  obtain ⟨a, _, ha⟩ := List.mem_map.mp hr
  by_cases hai : a.id = i
  · rw [if_pos hai] at ha
    rw [← ha]
    exact ⟨rfl, rfl, rfl⟩
  · rw [if_neg hai] at ha
    rw [ha] at hai
    exact absurd hri hai

/-- Claim C3, counterexample: `get_next_queued_job` ignores
`depends_on_job_id`. In a table whose only PENDING job depends on a job
that is RUNNING (not COMPLETED), the claim says no job is eligible, yet the
operation still returns that PENDING job. -/
theorem C3_dependency_cex :
    (getNextQueuedJob
      [⟨"a", "u", "seo_writer", "write", "", .running, 5, 10, none, none, 1, some 1, none, none⟩,
       ⟨"b", "u", "seo_writer", "write", "", .pending, 5, 0, none, none, 2, none, none, some "a"⟩]
      7).1 =
      some ⟨"b", "u", "seo_writer", "write", "", .pending, 5, 0, none, none, 2, none, none, some "a"⟩ ∧
    (⟨"b", "u", "seo_writer", "write", "", .pending, 5, 0, none, none, 2, none, none,
        some "a"⟩ : Job).depends_on_job_id = some "a" ∧
    ∀ x ∈ ([⟨"a", "u", "seo_writer", "write", "", .running, 5, 10, none, none, 1, some 1, none, none⟩,
            ⟨"b", "u", "seo_writer", "write", "", .pending, 5, 0, none, none, 2, none, none, some "a"⟩] :
           List Job),
      x.id = "a" → x.status ≠ .completed := by
  decide

/-- Claim C3, amended: `get_next_queued_job` returns a PENDING job of
maximal priority and, at equal priority, minimal `created_at`, with no
regard for `depends_on_job_id`; the same operation marks every row of that
id RUNNING at progress 0, and an immediately following call can therefore
never return a job with the same id. -/
theorem C3_next_queued (db : List Job) (now now2 : Nat) (j : Job)
    (h : (getNextQueuedJob db now).1 = some j) :
    j ∈ db ∧ j.status = .pending ∧
    (∀ x ∈ db, x.status = .pending →
       x.priority ≤ j.priority ∧ (x.priority = j.priority → j.created_at ≤ x.created_at)) ∧
    (∀ r ∈ (getNextQueuedJob db now).2, r.id = j.id →
       r.status = .running ∧ r.progress = 0 ∧ r.started_at = some now) ∧
    (∀ j2, (getNextQueuedJob (getNextQueuedJob db now).2 now2).1 = some j2 →
       j2.id ≠ j.id) := by
  have hfst : ∀ (d : List Job) (t : Nat) (b : Job),
      (getNextQueuedJob d t).1 = some b → selectNextPending d = some b := by
    intro d t b hb
    unfold getNextQueuedJob at hb
    cases hs : selectNextPending d with
    | none => rw [hs] at hb; exact absurd hb (by simp)
    | some c =>
        rw [hs] at hb
        have hc : some c = some b := hb
        exact hc
  have hsel : selectNextPending db = some j := hfst db now j h
  obtain ⟨hmem, hpend, hbest⟩ := selectNextPending_spec db j hsel
  have hsnd : (getNextQueuedJob db now).2 =
      updateJobStatus db j.id .running (some 0) none none now := by
    unfold getNextQueuedJob
    rw [hsel]
  refine ⟨hmem, hpend, ?_, ?_, ?_⟩
  · intro x hx hxp
    have hnb : ¬ beats x j := hbest x hx hxp
    unfold beats at hnb
    push_neg at hnb
    exact ⟨hnb.1, hnb.2⟩
  · rw [hsnd]
    exact updateJobStatus_marks_running db j.id now
  · intro j2 h2 hid
    have hsel2 : selectNextPending (getNextQueuedJob db now).2 = some j2 :=
      hfst _ now2 j2 h2
    obtain ⟨hmem2, hpend2, _⟩ := selectNextPending_spec _ j2 hsel2
    have := updateJobStatus_marks_running db j.id now j2 (by rw [← hsnd]; exact hmem2) hid
    rw [this.1] at hpend2
    exact absurd hpend2 (by decide)

/-- Claim C3, witness: on a two-job queue the higher-priority PENDING job is
returned and marked RUNNING. -/
theorem C3_next_queued_witness :
    (getNextQueuedJob
      [⟨"a", "u", "seo_writer", "write", "", .pending, 5, 0, none, none, 3, none, none, none⟩,
       ⟨"b", "u", "seo_writer", "write", "", .pending, 7, 0, none, none, 9, none, none, none⟩]
      42).1 =
      some ⟨"b", "u", "seo_writer", "write", "", .pending, 7, 0, none, none, 9, none, none, none⟩ ∧
    (⟨"b", "u", "seo_writer", "write", "", .pending, 7, 0, none, none, 9, none, none, none⟩ : Job) ∈
      ([⟨"a", "u", "seo_writer", "write", "", .pending, 5, 0, none, none, 3, none, none, none⟩,
        ⟨"b", "u", "seo_writer", "write", "", .pending, 7, 0, none, none, 9, none, none, none⟩] :
       List Job) ∧
    (⟨"b", "u", "seo_writer", "write", "", .pending, 7, 0, none, none, 9, none, none, none⟩ : Job).status = .pending ∧
    (∀ x ∈ ([⟨"a", "u", "seo_writer", "write", "", .pending, 5, 0, none, none, 3, none, none, none⟩,
             ⟨"b", "u", "seo_writer", "write", "", .pending, 7, 0, none, none, 9, none, none, none⟩] :
            List Job), x.status = .pending →
       x.priority ≤ (7 : Rat) ∧ (x.priority = (7 : Rat) → (9 : Nat) ≤ x.created_at)) ∧
    (∀ r ∈ (getNextQueuedJob
        [⟨"a", "u", "seo_writer", "write", "", .pending, 5, 0, none, none, 3, none, none, none⟩,
         ⟨"b", "u", "seo_writer", "write", "", .pending, 7, 0, none, none, 9, none, none, none⟩]
        42).2, r.id = "b" →
       r.status = .running ∧ r.progress = 0 ∧ r.started_at = some 42) ∧
    (∀ j2, (getNextQueuedJob (getNextQueuedJob
        [⟨"a", "u", "seo_writer", "write", "", .pending, 5, 0, none, none, 3, none, none, none⟩,
         ⟨"b", "u", "seo_writer", "write", "", .pending, 7, 0, none, none, 9, none, none, none⟩]
        42).2 43).1 = some j2 → j2.id ≠ "b") := by
  have h := C3_next_queued
    [⟨"a", "u", "seo_writer", "write", "", .pending, 5, 0, none, none, 3, none, none, none⟩,
     ⟨"b", "u", "seo_writer", "write", "", .pending, 7, 0, none, none, 9, none, none, none⟩]
    42 43
    ⟨"b", "u", "seo_writer", "write", "", .pending, 7, 0, none, none, 9, none, none, none⟩
    (by decide)
  exact ⟨by decide, h.1, h.2.1, h.2.2.1, h.2.2.2.1, h.2.2.2.2⟩

/-- Rows touched by the cancellation update of `cancel_job`: every row whose
id matches becomes CANCELLED with the fixed error message, and every other
row is untouched. -/
theorem updateJobStatus_marks_cancelled (db : List Job) (i : String) (now : Nat) :
    ∀ r ∈ updateJobStatus db i .cancelled none none (some "Cancelled by user") now,
      r.id = i → r.status = .cancelled ∧ r.error_message = some "Cancelled by user" := by
  intro r hr hri
  unfold updateJobStatus at hr
  obtain ⟨a, _, ha⟩ := List.mem_map.mp hr
  by_cases hai : a.id = i
  · rw [if_pos hai] at ha
    rw [← ha]
    exact ⟨rfl, rfl⟩
  · rw [if_neg hai] at ha
    rw [ha] at hai
    exact absurd hri hai

/-- Reduction of the ownership filter of `get_job` for a non-empty caller
id: the Python truthiness branch disappears. -/
theorem getJob_pred_of_ne (i u : String) (hu : u ≠ "") (j : Job) :
    ((j.id == i) &&
      (match (some u : Option String) with
       | some u => (u == "") || (j.user_id == u)
       | none => true)) = ((j.id == i) && (j.user_id == u)) := by
  have hne : (u == "") = false := by
    simp [hu]
  simp only [hne, Bool.false_or]

/-- Claim C5: `cancel_job` returns true exactly when a job with the given
id exists for the caller in status PENDING or RUNNING (caller ids are
non-empty and job ids unique); on false the table is returned unchanged; on
true the matching rows are CANCELLED with the fixed message. -/
theorem C5_cancel_job (db : List Job) (i u : String) (now : Nat)
    (hu : u ≠ "") (hids : (db.map Job.id).Nodup) :
    ((cancelJob db i u now).1 = true ↔
       ∃ j ∈ db, j.id = i ∧ j.user_id = u ∧ (j.status = .pending ∨ j.status = .running)) ∧
    ((cancelJob db i u now).1 = false → (cancelJob db i u now).2 = db) ∧
    ((cancelJob db i u now).1 = true →
       ∀ r ∈ (cancelJob db i u now).2, r.id = i →
         r.status = .cancelled ∧ r.error_message = some "Cancelled by user") := by
  have hpred : ∀ j : Job,
      ((j.id == i) &&
        (match (some u : Option String) with
         | some u => (u == "") || (j.user_id == u)
         | none => true)) = true ↔ (j.id = i ∧ j.user_id = u) := by
    intro j
    rw [getJob_pred_of_ne i u hu j]
    simp
  refine ⟨⟨?_, ?_⟩, ?_, ?_⟩
  · intro htrue
    unfold cancelJob at htrue
    cases hg : getJob db i (some u) with
    | none => rw [hg] at htrue; exact absurd htrue (by simp)
    | some j0 =>
        rw [hg] at htrue
        have htrue2 : (if j0.status = .pending ∨ j0.status = .running then
            (true, updateJobStatus db i .cancelled none none (some "Cancelled by user") now)
          else (false, db)).1 = true := htrue
        by_cases hc : j0.status = .pending ∨ j0.status = .running
        · have hj0 : j0 ∈ db := List.mem_of_find?_eq_some hg
          have hp := List.find?_some hg
          rw [hpred j0] at hp
          exact ⟨j0, hj0, hp.1, hp.2, hc⟩
        · rw [if_neg hc] at htrue2
          exact absurd htrue2 (by simp)
  · rintro ⟨j, hjmem, hjid, hjuser, hjstat⟩
    have hex : (db.find? fun x =>
        ((x.id == i) &&
          (match (some u : Option String) with
           | some u => (u == "") || (x.user_id == u)
           | none => true))).isSome := by
      rw [List.find?_isSome]
      exact ⟨j, hjmem, (hpred j).mpr ⟨hjid, hjuser⟩⟩
    obtain ⟨j0, hg⟩ := Option.isSome_iff_exists.mp hex
    have hg : getJob db i (some u) = some j0 := hg
    have hj0 : j0 ∈ db := List.mem_of_find?_eq_some hg
    have hp := List.find?_some hg
    rw [hpred j0] at hp
    have hjj : j0 = j :=
      List.inj_on_of_nodup_map hids hj0 hjmem (hp.1.trans hjid.symm)
    unfold cancelJob
    rw [hg]
    show (if j0.status = .pending ∨ j0.status = .running then
        (true, updateJobStatus db i .cancelled none none (some "Cancelled by user") now)
      else (false, db)).1 = true
    rw [if_pos (hjj ▸ hjstat)]
  · intro hfalse
    unfold cancelJob at hfalse ⊢
    cases hg : getJob db i (some u) with
    | none => rfl
    | some j0 =>
        rw [hg] at hfalse
        have hfalse2 : (if j0.status = .pending ∨ j0.status = .running then
            (true, updateJobStatus db i .cancelled none none (some "Cancelled by user") now)
          else (false, db)).1 = false := hfalse
        show (if j0.status = .pending ∨ j0.status = .running then
            (true, updateJobStatus db i .cancelled none none (some "Cancelled by user") now)
          else (false, db)).2 = db
        by_cases hc : j0.status = .pending ∨ j0.status = .running
        · rw [if_pos hc] at hfalse2
          exact absurd hfalse2 (by simp)
        · rw [if_neg hc]
  · intro htrue
    unfold cancelJob at htrue ⊢
    cases hg : getJob db i (some u) with
    | none => rw [hg] at htrue; exact absurd htrue (by simp)
    | some j0 =>
        rw [hg] at htrue
        have htrue2 : (if j0.status = .pending ∨ j0.status = .running then
            (true, updateJobStatus db i .cancelled none none (some "Cancelled by user") now)
          else (false, db)).1 = true := htrue
        show ∀ r ∈ (if j0.status = .pending ∨ j0.status = .running then
            (true, updateJobStatus db i .cancelled none none (some "Cancelled by user") now)
          else (false, db)).2, r.id = i →
            r.status = .cancelled ∧ r.error_message = some "Cancelled by user"
        by_cases hc : j0.status = .pending ∨ j0.status = .running
        · rw [if_pos hc]
          exact updateJobStatus_marks_cancelled db i now
        · rw [if_neg hc] at htrue2
          exact absurd htrue2 (by simp)

/-- Claim C5, witness: cancelling a PENDING job of the caller succeeds and
cancels exactly the matching row; the equivalence, frame and marking parts
are instantiated on a concrete one-row table. -/
theorem C5_cancel_job_witness :
    ("u1" : String) ≠ "" ∧
    (([⟨"j9", "u1", "seo_writer", "write", "t", .pending, 5, 0,
         none, none, 0, none, none, none⟩] : List Job).map Job.id).Nodup ∧
    (((cancelJob
        [⟨"j9", "u1", "seo_writer", "write", "t", .pending, 5, 0,
           none, none, 0, none, none, none⟩] "j9" "u1" 11).1 = true ↔
       ∃ j ∈ ([⟨"j9", "u1", "seo_writer", "write", "t", .pending, 5, 0,
                 none, none, 0, none, none, none⟩] : List Job),
         j.id = "j9" ∧ j.user_id = "u1" ∧ (j.status = .pending ∨ j.status = .running)) ∧
     ((cancelJob
        [⟨"j9", "u1", "seo_writer", "write", "t", .pending, 5, 0,
           none, none, 0, none, none, none⟩] "j9" "u1" 11).1 = false →
       (cancelJob
        [⟨"j9", "u1", "seo_writer", "write", "t", .pending, 5, 0,
           none, none, 0, none, none, none⟩] "j9" "u1" 11).2 =
        [⟨"j9", "u1", "seo_writer", "write", "t", .pending, 5, 0,
           none, none, 0, none, none, none⟩]) ∧
     ((cancelJob
        [⟨"j9", "u1", "seo_writer", "write", "t", .pending, 5, 0,
           none, none, 0, none, none, none⟩] "j9" "u1" 11).1 = true →
       ∀ r ∈ (cancelJob
        [⟨"j9", "u1", "seo_writer", "write", "t", .pending, 5, 0,
           none, none, 0, none, none, none⟩] "j9" "u1" 11).2, r.id = "j9" →
         r.status = .cancelled ∧ r.error_message = some "Cancelled by user")) :=
  ⟨by decide, by decide,
   C5_cancel_job
     [⟨"j9", "u1", "seo_writer", "write", "t", .pending, 5, 0,
        none, none, 0, none, none, none⟩] "j9" "u1" 11 (by decide) (by decide)⟩

/-- Claim C6, counterexample: `ProgressTracker.update` accepts any value in
0..100 without comparing it to the current progress, so a RUNNING job at
progress 50 is moved down to 30 by a later update. -/
theorem C6_progress_cex :
    sampleRunningJob.status = .running ∧
    sampleRunningJob.progress = 50 ∧
    (ProgressTracker.update ⟨"j2", 50⟩ [sampleRunningJob] 30 9).2 ≠ [sampleRunningJob] ∧
    ∀ r ∈ (ProgressTracker.update ⟨"j2", 50⟩ [sampleRunningJob] 30 9).2,
      r.status = .running ∧ r.progress = 30 ∧ r.progress < 50 := by
  decide

/-- Claim C6, amended: `ProgressTracker.update` applies every supplied value
in 0..100 to the stored progress regardless of the current value (so
progress may decrease while the job is RUNNING), rejects values outside
0..100 as a no-op, and the COMPLETED transition issued by the task runner
on success sets progress to exactly 100. -/
theorem C6_progress_rules (tr : ProgressTracker) (db : List Job) (p q : Int)
    (now : Nat) (job : Job) (r : String) (t1 t2 : Nat)
    (h0 : 0 ≤ p) (h1 : p ≤ 100) (h2 : q < 0 ∨ q > 100) :
    tr.update db p now =
      ({ tr with current_progress := p },
       updateJobStatus db tr.job_id .running (some p) none none now) ∧
    tr.update db q now = (tr, db) ∧
    (executeJobRow job (.success r) t1 t2).progress = 100 ∧
    (executeJobRow job (.success r) t1 t2).status = .completed := by
  have hnot : ¬ (p < 0 ∨ p > 100) := by
    push_neg
    exact ⟨h0, h1⟩
  refine ⟨?_, ?_, rfl, rfl⟩
  · unfold ProgressTracker.update
    rw [if_neg hnot]
  · unfold ProgressTracker.update
    rw [if_pos h2]

/-- Claim C6, witness: the amended theorem at a concrete tracker sitting at
50 percent, an in-range update to 30, an out-of-range update to 150, and a
successful execution. -/
theorem C6_progress_rules_witness :
    (0 : Int) ≤ 30 ∧ (30 : Int) ≤ 100 ∧ ((150 : Int) < 0 ∨ (150 : Int) > 100) ∧
    ((ProgressTracker.update ⟨"j2", 50⟩ [sampleRunningJob] 30 9 =
       (⟨"j2", 30⟩,
        updateJobStatus [sampleRunningJob] "j2" .running (some 30) none none 9)) ∧
     ProgressTracker.update ⟨"j2", 50⟩ [sampleRunningJob] 150 9 = (⟨"j2", 50⟩, [sampleRunningJob]) ∧
     (executeJobRow sampleRunningJob (.success "ok") 9 10).progress = 100 ∧
     (executeJobRow sampleRunningJob (.success "ok") 9 10).status = .completed) :=
  ⟨by decide, by decide, by decide,
   C6_progress_rules ⟨"j2", 50⟩ [sampleRunningJob] 30 150 9 sampleRunningJob "ok" 9 10
     (by decide) (by decide) (by decide)⟩

/-- Sample ledger entry whose cost has more than six decimal places, as the
per-token prices in the source produce. -/
def tinyEntry : BudgetEntry :=
  ⟨"e1", "u1", 1/10000000, 1, 0, 0, 5⟩

/-- Claim C7, counterexample: `get_usage_summary` rounds the cost total to
six decimal places, so for a single matching entry of cost 1/10000000 USD
the reported total (0) differs from the exact sum over the matching
entries. -/
theorem C7_rounding_cex :
    tinyEntry.user_id = "u1" ∧
    (getUsageSummary [tinyEntry] "u1" none none).total_cost_usd = 0 ∧
    (getUsageSummary [tinyEntry] "u1" none none).total_cost_usd ≠ tinyEntry.cost := by
  have hsum : (getUsageSummary [tinyEntry] "u1" none none).total_cost_usd =
      round6 ((1 : Rat)/10000000) := by
    simp [getUsageSummary, entryMatches, tinyEntry]
  have hfloor : ⌊(1 : Rat)/10⌋ = 0 := by
    rw [Int.floor_eq_zero_iff]
    constructor <;> norm_num
  have hround : round6 ((1 : Rat)/10000000) = 0 := by
    have h1 : ((1 : Rat)/10000000) * 1000000 = 1/10 := by norm_num
    unfold round6 pyRoundHalfEven
    rw [h1, hfloor]
    rw [if_pos (by norm_num)]
    norm_num
  refine ⟨rfl, ?_, ?_⟩
  · rw [hsum, hround]
  · rw [hsum, hround]
    show (0 : Rat) ≠ tinyEntry.cost
    unfold tinyEntry
    norm_num

/-- Claim C7, amended: the cost total reported by `get_usage_summary` is the
exact sum of `cost` over precisely the ledger entries of the caller whose
`created_at` lies in the (inclusive) query window — each entry once, no
foreign or out-of-window entry — rounded half-to-even to six decimal
places; and every aggregated entry does belong to the caller and the
window. -/
theorem C7_usage_summary (db : List BudgetEntry) (u : String) (s e : Option Nat) :
    (getUsageSummary db u s e).total_cost_usd =
      round6 ((db.filter fun en =>
        decide (en.user_id = u) &&
        (s.all fun d => decide (d ≤ en.created_at)) &&
        (e.all fun d => decide (en.created_at ≤ d))).map (·.cost)).sum ∧
    ∀ en ∈ db.filter (entryMatches u s e),
      en.user_id = u ∧ (∀ d, s = some d → d ≤ en.created_at) ∧
        (∀ d, e = some d → en.created_at ≤ d) := by
  constructor
  · unfold getUsageSummary
    have hfil : db.filter (entryMatches u s e) =
        db.filter fun en =>
          decide (en.user_id = u) &&
          (s.all fun d => decide (d ≤ en.created_at)) &&
          (e.all fun d => decide (en.created_at ≤ d)) := by
      refine List.filter_congr ?_
      intro en _
      by_cases hx : en.user_id = u <;>
        cases s <;> cases e <;>
          simp [entryMatches, hx, Option.all]
    rw [hfil]
  · intro en hen
    have h2 := (List.mem_filter.mp hen).2
    cases s with
    | none =>
        cases e with
        | none =>
            simp only [entryMatches, Bool.and_true, Bool.and_eq_true,
              beq_iff_eq] at h2
            refine ⟨h2, ?_, ?_⟩
            · intro d hd
              cases hd
            · intro d hd
              cases hd
        | some d1 =>
            simp only [entryMatches, Bool.and_true, Bool.and_eq_true,
              beq_iff_eq, decide_eq_true_eq] at h2
            refine ⟨h2.1, ?_, ?_⟩
            · intro d hd
              cases hd
            · intro d hd
              cases hd
              exact h2.2
    | some d0 =>
        cases e with
        | none =>
            simp only [entryMatches, Bool.and_true, Bool.and_eq_true,
              beq_iff_eq, decide_eq_true_eq] at h2
            refine ⟨h2.1, ?_, ?_⟩
            · intro d hd
              cases hd
              exact h2.2
            · intro d hd
              cases hd
        | some d1 =>
            simp only [entryMatches, Bool.and_true, Bool.and_eq_true,
              beq_iff_eq, decide_eq_true_eq] at h2
            refine ⟨h2.1.1, ?_, ?_⟩
            · intro d hd
              cases hd
              exact h2.1.2
            · intro d hd
              cases hd
              exact h2.2

/-- Claim C9: when the caller has no active budget-limit row,
`check_budget_limit` reports within budget for every possible ledger —
however large the spend — and the returned value carries only the message,
with no violations, usage, or limits breakdowns. -/
theorem C9_no_active_limit (limits : List BudgetLimitRec) (ledger : List BudgetEntry)
    (u : String) (dailyStart monthlyStart : Nat)
    (h : ∀ l ∈ limits, l.user_id = u → l.is_active = false) :
    checkBudgetLimit limits ledger u dailyStart monthlyStart =
      { within_budget := true
        message := some "No budget limit configured"
        violations := none
        usage := none
        limits := none } := by
  have hfind : limits.find? (fun l => (l.user_id == u) && l.is_active) = none := by
    rw [List.find?_eq_none]
    intro l hl
    simp only [Bool.and_eq_true, beq_iff_eq, not_and]
    intro hlu
    simp [h l hl hlu]
  unfold checkBudgetLimit
  rw [hfind]

/-- Claim C9, witness: a caller whose only limit row is inactive and whose
ledger holds a one-million-dollar entry is still reported within budget,
with the breakdown fields absent. -/
theorem C9_no_active_limit_witness :
    (∀ l ∈ ([⟨"L1", "u1", some 1, none, none, 80, false, 0, 0⟩] : List BudgetLimitRec),
       l.user_id = "u1" → l.is_active = false) ∧
    checkBudgetLimit [⟨"L1", "u1", some 1, none, none, 80, false, 0, 0⟩]
        [⟨"e2", "u1", 1000000, 0, 0, 0, 1⟩] "u1" 0 0 =
      { within_budget := true
        message := some "No budget limit configured"
        violations := none
        usage := none
        limits := none } :=
  ⟨by decide,
   C9_no_active_limit [⟨"L1", "u1", some 1, none, none, 80, false, 0, 0⟩]
     [⟨"e2", "u1", 1000000, 0, 0, 0, 1⟩] "u1" 0 0 (by decide)⟩


theorem alookup_aset_self {β : Type} (m : List (String × β)) (k : String) (v : β) :
    alookup (aset m k v) k = some v := by
  induction m with
  | nil => simp [aset, alookup]
  | cons p m ih =>
      obtain ⟨k0, v0⟩ := p
      by_cases hk : k = k0
      · subst hk
        simp [aset, alookup]
      · simp [aset, alookup, hk, ih]

theorem alookup_aset_ne {β : Type} (m : List (String × β)) (k k' : String) (v : β)
    (h : k' ≠ k) : alookup (aset m k v) k' = alookup m k' := by
  induction m with
  | nil => simp [aset, alookup, h]
  | cons p m ih =>
      obtain ⟨k0, v0⟩ := p
      by_cases hk : k = k0
      · subst hk
        simp [aset, alookup, h]
      · by_cases hk' : k' = k0
        · subst hk'
          simp [aset, alookup, hk]
        · simp [aset, alookup, hk, hk', ih]

theorem alookup_eq_none_of_not_mem {β : Type} (m : List (String × β)) (k : String)
    (h : k ∉ m.map Prod.fst) : alookup m k = none := by
  induction m with
  | nil => simp [alookup]
  | cons p m ih =>
      obtain ⟨k0, v0⟩ := p
      simp only [List.map_cons, List.mem_cons] at h
      push_neg at h
      simp [alookup, h.1, ih h.2]

theorem alookup_adel_self {β : Type} (m : List (String × β)) (k : String)
    (hnd : (m.map Prod.fst).Nodup) : alookup (adel m k) k = none := by
  induction m with
  | nil => simp [adel, alookup]
  | cons p m ih =>
      obtain ⟨k0, v0⟩ := p
      simp only [List.map_cons, List.nodup_cons] at hnd
      by_cases hk : k = k0
      · subst hk
        have hd : adel ((k, v0) :: m) k = m := by
          simp [adel]
        rw [hd]
        exact alookup_eq_none_of_not_mem m k hnd.1
      · simp [adel, alookup, hk, ih hnd.2]

theorem alookup_adel_ne {β : Type} (m : List (String × β)) (k k' : String)
    (h : k' ≠ k) : alookup (adel m k) k' = alookup m k' := by
  induction m with
  | nil => simp [adel, alookup]
  | cons p m ih =>
      obtain ⟨k0, v0⟩ := p
      by_cases hk : k = k0
      · subst hk
        simp [adel, alookup, h]
      · by_cases hk' : k' = k0
        · subst hk'
          simp [adel, alookup, hk]
        · simp [adel, alookup, hk, hk', ih]

theorem mem_keys_aset {β : Type} (m : List (String × β)) (k : String) (v : β)
    (k' : String) :
    k' ∈ (aset m k v).map Prod.fst ↔ (k' = k ∨ k' ∈ m.map Prod.fst) := by
  induction m with
  | nil =>
      simp [aset]
  | cons p m ih =>
      obtain ⟨k0, v0⟩ := p
      by_cases hk : k = k0
      · subst hk
        have hd : aset ((k, v0) :: m) k v = (k, v) :: m := by
          simp [aset]
        rw [hd]
        simp only [List.map_cons, List.mem_cons]
        tauto
      · have hd : aset ((k0, v0) :: m) k v = (k0, v0) :: aset m k v := by
          simp [aset, hk]
        rw [hd]
        simp only [List.map_cons, List.mem_cons, ih]
        tauto

theorem nodup_keys_aset {β : Type} (m : List (String × β)) (k : String) (v : β)
    (h : (m.map Prod.fst).Nodup) : ((aset m k v).map Prod.fst).Nodup := by
  induction m with
  | nil => simp [aset]
  | cons p m ih =>
      obtain ⟨k0, v0⟩ := p
      simp only [List.map_cons, List.nodup_cons] at h
      by_cases hk : k = k0
      · subst hk
        have hd : aset ((k, v0) :: m) k v = (k, v) :: m := by
          simp [aset]
        rw [hd]
        simp only [List.map_cons, List.nodup_cons]
        exact h
      · have hd : aset ((k0, v0) :: m) k v = (k0, v0) :: aset m k v := by
          simp [aset, hk]
        rw [hd]
        simp only [List.map_cons, List.nodup_cons]
        refine ⟨?_, ih h.2⟩
        intro hmem
        rcases (mem_keys_aset m k v k0).mp hmem with hk0 | hk0
        · exact hk hk0.symm
        · exact h.1 hk0

theorem mem_keys_adel {β : Type} (m : List (String × β)) (k k' : String)
    (h : k' ∈ (adel m k).map Prod.fst) : k' ∈ m.map Prod.fst := by
  induction m with
  | nil => simpa [adel] using h
  | cons p m ih =>
      obtain ⟨k0, v0⟩ := p
      by_cases hk : k = k0
      · subst hk
        have hd : adel ((k, v0) :: m) k = m := by
          simp [adel]
        rw [hd] at h
        simp only [List.map_cons, List.mem_cons]
        exact Or.inr h
      · have hd : adel ((k0, v0) :: m) k = (k0, v0) :: adel m k := by
          simp [adel, hk]
        rw [hd] at h
        simp only [List.map_cons, List.mem_cons] at h ⊢
        rcases h with h | h
        · exact Or.inl h
        · exact Or.inr (ih h)

theorem nodup_keys_adel {β : Type} (m : List (String × β)) (k : String)
    (h : (m.map Prod.fst).Nodup) : ((adel m k).map Prod.fst).Nodup := by
  induction m with
  | nil => simp [adel]
  | cons p m ih =>
      obtain ⟨k0, v0⟩ := p
      simp only [List.map_cons, List.nodup_cons] at h
      by_cases hk : k = k0
      · subst hk
        have hd : adel ((k, v0) :: m) k = m := by
          simp [adel]
        rw [hd]
        exact h.2
      · have hd : adel ((k0, v0) :: m) k = (k0, v0) :: adel m k := by
          simp [adel, hk]
        rw [hd]
        simp only [List.map_cons, List.nodup_cons]
        refine ⟨?_, ih h.2⟩
        intro hmem
        exact h.1 (mem_keys_adel m k k0 hmem)

theorem lookupD_aset_self (m : List (String × List String)) (k : String)
    (v : List String) : lookupD (aset m k v) k = v := by
  unfold lookupD
  rw [alookup_aset_self]
  rfl

theorem lookupD_aset_ne (m : List (String × List String)) (k k' : String)
    (v : List String) (h : k' ≠ k) : lookupD (aset m k v) k' = lookupD m k' := by
  unfold lookupD
  rw [alookup_aset_ne _ _ _ _ h]

theorem lookupD_adel_self (m : List (String × List String)) (k : String)
    (hnd : (m.map Prod.fst).Nodup) : lookupD (adel m k) k = [] := by
  unfold lookupD
  rw [alookup_adel_self _ _ hnd]
  rfl

theorem lookupD_adel_ne (m : List (String × List String)) (k k' : String)
    (h : k' ≠ k) : lookupD (adel m k) k' = lookupD m k' := by
  unfold lookupD
  rw [alookup_adel_ne _ _ _ h]

theorem roomName_inj {a b : String} (h : roomName a = roomName b) : a = b := by
  unfold roomName at h
  have h2 : ("job_" ++ a).data = ("job_" ++ b).data := by rw [h]
  simp only [String.data_append] at h2
  have h3 : a.data = b.data := List.append_cancel_left h2
  exact String.ext h3

theorem hubWF_initial : HubWF HubState.initial :=
  ⟨List.nodup_nil, List.nodup_nil, fun _ => rfl⟩

theorem hubWF_connect (s : HubState) (sid user : String) (h : HubWF s) :
    HubWF (s.connect sid user) :=
  h

theorem hubWF_join (s : HubState) (sid j : String) (h : HubWF s) :
    HubWF (s.joinJobRoom sid j).1 := by
  obtain ⟨hn1, hn2, heq⟩ := h
  unfold HubState.joinJobRoom
  cases ha : alookup s.active_connections sid with
  | none => exact ⟨hn1, hn2, heq⟩
  | some conn =>
      refine ⟨nodup_keys_aset _ _ _ hn1, nodup_keys_aset _ _ _ hn2, ?_⟩
      intro j'
      by_cases hj : j' = j
      · subst hj
        show lookupD (aset s.sio_rooms (roomName j')
            (addToSet (lookupD s.sio_rooms (roomName j')) sid)) (roomName j') =
          lookupD (aset s.job_subscribers j'
            (addToSet (lookupD s.job_subscribers j') sid)) j'
        rw [lookupD_aset_self, lookupD_aset_self, heq j']
      · show lookupD (aset s.sio_rooms (roomName j)
            (addToSet (lookupD s.sio_rooms (roomName j)) sid)) (roomName j') =
          lookupD (aset s.job_subscribers j
            (addToSet (lookupD s.job_subscribers j) sid)) j'
        rw [lookupD_aset_ne _ _ _ _ (fun hc => hj (roomName_inj hc))]
        rw [lookupD_aset_ne _ _ _ _ hj]
        exact heq j'

theorem hubWF_leave (s : HubState) (sid j : String) (h : HubWF s) :
    HubWF (s.leaveJobRoom sid j) := by
  obtain ⟨hn1, hn2, heq⟩ := h
  unfold HubState.leaveJobRoom
  cases ha : alookup s.active_connections sid with
  | none => exact ⟨hn1, hn2, heq⟩
  | some conn =>
      refine ⟨?_, nodup_keys_aset _ _ _ hn2, ?_⟩
      · show ((if removeFromSet (lookupD s.job_subscribers j) sid = [] then
            adel s.job_subscribers j
          else aset s.job_subscribers j
            (removeFromSet (lookupD s.job_subscribers j) sid)).map Prod.fst).Nodup
        by_cases hrem : removeFromSet (lookupD s.job_subscribers j) sid = []
        · rw [if_pos hrem]
          exact nodup_keys_adel _ _ hn1
        · rw [if_neg hrem]
          exact nodup_keys_aset _ _ _ hn1
      · intro j'
        by_cases hj : j' = j
        · subst hj
          show lookupD (aset s.sio_rooms (roomName j')
              (removeFromSet (lookupD s.sio_rooms (roomName j')) sid)) (roomName j') =
            lookupD (if removeFromSet (lookupD s.job_subscribers j') sid = [] then
                adel s.job_subscribers j'
              else aset s.job_subscribers j'
                (removeFromSet (lookupD s.job_subscribers j') sid)) j'
          by_cases hrem : removeFromSet (lookupD s.job_subscribers j') sid = []
          · rw [if_pos hrem, lookupD_aset_self, lookupD_adel_self _ _ hn1, heq j', hrem]
          · rw [if_neg hrem, lookupD_aset_self, lookupD_aset_self, heq j']
        · show lookupD (aset s.sio_rooms (roomName j)
              (removeFromSet (lookupD s.sio_rooms (roomName j)) sid)) (roomName j') =
            lookupD (if removeFromSet (lookupD s.job_subscribers j) sid = [] then
                adel s.job_subscribers j
              else aset s.job_subscribers j
                (removeFromSet (lookupD s.job_subscribers j) sid)) j'
          by_cases hrem : removeFromSet (lookupD s.job_subscribers j) sid = []
          · rw [if_pos hrem]
            rw [lookupD_aset_ne _ _ _ _ (fun hc => hj (roomName_inj hc))]
            rw [lookupD_adel_ne _ _ _ hj]
            exact heq j'
          · rw [if_neg hrem]
            rw [lookupD_aset_ne _ _ _ _ (fun hc => hj (roomName_inj hc))]
            rw [lookupD_aset_ne _ _ _ _ hj]
            exact heq j'

theorem hubWF_disconnect (s : HubState) (sid : String) (h : HubWF s) :
    HubWF (s.disconnect sid) := by
  unfold HubState.disconnect
  cases ha : alookup s.active_connections sid with
  | none => exact h
  | some conn =>
      have hfold : ∀ (rs : List String) (st : HubState), HubWF st →
          HubWF (rs.foldl (fun st j => st.leaveJobRoom sid j) st) := by
        intro rs
        induction rs with
        | nil => intro st hst; exact hst
        | cons r rs ih =>
            intro st hst
            exact ih _ (hubWF_leave st sid r hst)
      have h2 := hfold conn.rooms s h
      exact ⟨h2.1, h2.2.1, h2.2.2⟩

/-- Hub state with one connected client that has not subscribed to any job. -/
def hubOneConn : HubState :=
  HubState.initial.connect "c1" "u1"

/-- Hub state with one connected client subscribed to job "jW". -/
def hubOneSub : HubState :=
  ((HubState.initial.connect "c1" "u1").joinJobRoom "c1" "jW").1

/-- Claim C8, counterexample: the `job_started` event that
`AgentService.execute_job` emits carries no room argument and therefore
reaches every connected client. With one connection that is not subscribed
to job "j1" (which has zero subscribers), the event is still delivered to
it, contradicting that job events are delivered only to subscribers. -/
theorem C8_broadcast_cex :
    "c1" ∈ agentBroadcastRecipients hubOneConn ∧
    subscribersOf hubOneConn "j1" = [] ∧
    "c1" ∉ subscribersOf hubOneConn "j1" := by
  decide

/-- Claim C8, amended: `emit_job_update` delivers exactly to the connections
currently subscribed to the room of the job, and when the job has zero
subscribers it returns without emitting, detected from the local subscriber
map alone; but the job events emitted directly by `AgentService.execute_job`
go to every connected client, subscribed or not. -/
theorem C8_emit_exact (s : HubState) (j : String) (h : HubWF s) :
    (emitJobUpdate s j).2 = subscribersOf s j ∧
    (subscribersOf s j = [] → emitJobUpdate s j = (false, [])) ∧
    (∀ c ∈ s.active_connections, c.1 ∈ agentBroadcastRecipients s) := by
  obtain ⟨-, -, heq⟩ := h
  refine ⟨?_, ?_, ?_⟩
  · unfold emitJobUpdate
    by_cases hz : (subscribersOf s j).length = 0
    · rw [if_pos hz]
      exact (List.length_eq_zero.mp hz).symm
    · rw [if_neg hz]
      exact heq j
  · intro hz
    unfold emitJobUpdate
    rw [if_pos (by rw [hz]; rfl)]
  · intro c hc
    exact List.mem_map.mpr ⟨c, hc, rfl⟩

/-- Claim C8, witness: the amended theorem applied to a well-formed hub
state with one subscriber of job "jW". -/
theorem C8_emit_exact_witness :
    HubWF hubOneSub ∧
    ((emitJobUpdate hubOneSub "jW").2 = subscribersOf hubOneSub "jW" ∧
     (subscribersOf hubOneSub "jW" = [] → emitJobUpdate hubOneSub "jW" = (false, [])) ∧
     (∀ c ∈ hubOneSub.active_connections, c.1 ∈ agentBroadcastRecipients hubOneSub)) :=
  ⟨hubWF_join (HubState.initial.connect "c1" "u1") "c1" "jW"
     (hubWF_connect HubState.initial "c1" "u1" hubWF_initial),
   C8_emit_exact hubOneSub "jW"
     (hubWF_join (HubState.initial.connect "c1" "u1") "c1" "jW"
       (hubWF_connect HubState.initial "c1" "u1" hubWF_initial))⟩
